import Mathlib

/-!
Verification of the AutoStruct structure engine (src/app.py): the ASCII tree
parser, the structure validator, and the filesystem materializer with its
dry-run contract.  Python dictionaries are modelled as insertion-ordered
association lists (assignment to an existing key keeps its position and
replaces its value); the mutable ancestor stack of the ASCII parser is
modelled as a list of paths into the root mapping; the filesystem is
modelled as sets of directory and file paths together with an oracle that
says at which paths an operating-system call raises (and with which
message).
-/

/-- Whitespace characters, as matched by the Python regex class and by
Python string strip for the ASCII inputs in question. -/
def pyIsSpace (c : Char) : Bool :=
  c = ' ' || c = '\t' || c = '\n' || c = '\r' || c = '\x0b' || c = '\x0c'

/-- Python strip on a character list: drop whitespace from both ends. -/
def pyStrip (l : List Char) : List Char :=
  ((l.dropWhile pyIsSpace).reverse.dropWhile pyIsSpace).reverse

/-- Split a character list at newline characters, keeping empty pieces,
as Python text.split with a newline does. -/
def splitLines : List Char → List (List Char)
  | [] => [[]]
  | c :: rest =>
    if c = '\n' then [] :: splitLines rest
    else
      match splitLines rest with
      | l :: ls => (c :: l) :: ls
      | [] => [[c]]

/-- The ten box-drawing characters of the cleanup regexes in parse_ascii. -/
def isTreeChar (c : Char) : Bool :=
  c = '├' || c = '└' || c = '│' || c = '─' || c = '┌' || c = '┐' ||
  c = '┘' || c = '┬' || c = '┴' || c = '┼'

/-- The nine characters of the scanning-loop branch that sets the content
start: every box-drawing character except the vertical bar. -/
def isScanGlyph (c : Char) : Bool :=
  c = '├' || c = '└' || c = '┌' || c = '┐' || c = '┘' || c = '┬' ||
  c = '┴' || c = '┼' || c = '─'

/-- After a scan glyph was hit at index cs - 1: advance over spaces and
horizontal dashes, adding one indent unit per character (the inner while
loop of parse_ascii, lines 50-52). Returns (indent, content_start). -/
def scanAdvance : List Char → Nat → Nat → Nat × Nat
  | [], cs, indent => (indent, cs)
  | c :: rest, cs, indent =>
    if c = ' ' || c = '─' then scanAdvance rest (cs + 1) (indent + 1)
    else (indent, cs)

/-- The character scanning loop of parse_ascii (lines 40-56): space, tab
and vertical bar accumulate indentation (tab counts 4, the others 1); a
scan glyph sets the content start just after it and hands over to
scanAdvance; any other character is the content start.  If the loop runs
off the end the content start keeps its initial value 0. -/
def scanAux : List Char → Nat → Nat → Nat × Nat
  | [], _, indent => (indent, 0)
  | c :: rest, i, indent =>
    if c = ' ' || c = '\t' || c = '│' then
      scanAux rest (i + 1) (indent + (if c = '\t' then 4 else 1))
    else if isScanGlyph c then
      scanAdvance rest (i + 1) indent
    else (indent, i)

/-- Indentation level and content start offset of one line. -/
def scanLine (line : List Char) : Nat × Nat :=
  scanAux line 0 0

/-- States of the scanner equivalent to the global regex substitution
that removes every run of box-drawing characters together with the
whitespace run following it. -/
inductive SubMode where
  | copy
  | glyphs
  | spaces
deriving DecidableEq, Repr

/-- Remove every match of one-or-more box-drawing characters followed by
zero-or-more whitespace characters (the second cleanup regex of
parse_ascii, line 67), scanning left to right. -/
def subGlyphRuns : SubMode → List Char → List Char
  | _, [] => []
  | .copy, c :: rest =>
    if isTreeChar c then subGlyphRuns .glyphs rest else c :: subGlyphRuns .copy rest
  | .glyphs, c :: rest =>
    if isTreeChar c then subGlyphRuns .glyphs rest
    else if pyIsSpace c then subGlyphRuns .spaces rest
    else c :: subGlyphRuns .copy rest
  | .spaces, c :: rest =>
    if pyIsSpace c then subGlyphRuns .spaces rest
    else if isTreeChar c then subGlyphRuns .glyphs rest
    else c :: subGlyphRuns .copy rest

/-- Extraction and cleanup of the name on one line (parse_ascii lines
58-71): take the substring from the content start (the whole line when the
content start ran past the end), strip it, drop a leading run of
box-drawing or whitespace characters, remove every box-drawing run with
its trailing whitespace, strip again, then drop leading and trailing runs
of whitespace or horizontal dashes. -/
def cleanContent (line : List Char) (cs : Nat) : List Char :=
  let c0 := if cs < line.length then pyStrip (line.drop cs) else pyStrip line
  let c1 := c0.dropWhile (fun c => isTreeChar c || pyIsSpace c)
  let c2 := pyStrip (subGlyphRuns .copy c1)
  let c3 := c2.dropWhile (fun c => pyIsSpace c || c = '─')
  (c3.reverse.dropWhile (fun c => pyIsSpace c || c = '─')).reverse

/-- The decoded generic value shared by all three input formats: a Python
None, a string, a mapping (insertion-ordered), a sequence, or any other
scalar (number, boolean, ...), which every consumer in the source treats
alike. -/
inductive PyVal where
  | null
  | str (s : String)
  | dict (entries : List (String × PyVal))
  | list (items : List PyVal)
  | other
deriving Repr

/-- Assignment to a key of a Python dictionary: an existing key keeps its
position and gets the new value, a new key is appended. -/
def dictInsert (k : String) (v : PyVal) : List (String × PyVal) → List (String × PyVal)
  | [] => [(k, v)]
  | (k0, v0) :: rest =>
    if k0 = k then (k0, v) :: rest else (k0, v0) :: dictInsert k v rest

/-- Lookup of a key in a mapping (first match). -/
def lookupD : List (String × PyVal) → String → Option PyVal
  | [], _ => none
  | (k0, v0) :: rest, k => if k0 = k then some v0 else lookupD rest k

/-- Replace the value stored at a key, keeping order and keys. -/
def updateValue (d : List (String × PyVal)) (p : String) (w : PyVal) :
    List (String × PyVal) :=
  d.map (fun e => if e.1 = p then (e.1, w) else e)

/-- Assign a key inside the sub-mapping reached by the given path of keys
from the root mapping.  The parser only ever uses paths along which every
key holds a mapping (the stack frames alias open directories); a broken
path leaves the mapping unchanged. -/
def setAtPath : List String → String → PyVal → List (String × PyVal) → List (String × PyVal)
  | [], k, v, d => dictInsert k v d
  | p :: ps, k, v, d =>
    match lookupD d p with
    | some (.dict ch) => updateValue d p (.dict (setAtPath ps k v ch))
    | _ => d

/-- Parser state: the root mapping under construction and the ancestor
stack; each frame holds the key path of an open directory together with
the indentation level at which it was opened (the Python stack holds the
dict objects themselves; paths name the same objects). -/
structure PState where
  root : List (String × PyVal)
  stack : List (List String × Int)
deriving Repr

/-- The stack reconciliation loop of parse_ascii (lines 77-78): pop while
more than one frame remains and the top frame's level is at least the
current indentation. -/
def popStack (l : Int) : List (List String × Int) → List (List String × Int)
  | [] => []
  | [f] => [f]
  | f :: g :: rest =>
    if l ≤ f.2 then popStack l (g :: rest) else f :: g :: rest

/-- Processing of a single line of parse_ascii (lines 30-92): skip blank
lines, scan indentation, clean the content, skip lines whose cleaned
content is empty, pop the stack, then insert a directory (pushing a frame)
or a file under the mapping on top of the stack; a directory whose name is
empty after removing the trailing separator inserts nothing and pushes
nothing. -/
def stepLine (st : PState) (line : List Char) : PState :=
  if pyStrip line = [] then st
  else
    let indent := (scanLine line).1
    let cs := (scanLine line).2
    let cleaned := cleanContent line cs
    if cleaned = [] then st
    else
      let stack1 := popStack (indent : Int) st.stack
      let parentPath := (stack1.headD ([], -1)).1
      if cleaned.getLast? = some '/' then
        let nameCs := cleaned.dropLast
        if nameCs = [] then { st with stack := stack1 }
        else
          { root := setAtPath parentPath (String.mk nameCs) (.dict []) st.root,
            stack := (parentPath ++ [String.mk nameCs], (indent : Int)) :: stack1 }
      else
        { root := setAtPath parentPath (String.mk cleaned) .null st.root,
          stack := stack1 }

/-- Initial parser state: empty root, stack seeded with the root mapping
at level -1. -/
def parseInit : PState :=
  { root := [], stack := [([], -1)] }

/-- parse_ascii (lines 24-94): strip the text, split into lines, process
each line in order, return the root mapping. -/
def parse_ascii (text : String) : List (String × PyVal) :=
  ((splitLines (pyStrip text.data)).foldl stepLine parseInit).root

/-- The reserved filesystem-unsafe characters of the validator regex. -/
def reservedChars : List Char := ['<', '>', ':', '"', '|', '?', '*']

/-- Whether a name contains a reserved character (the regex search of
validate_structure, line 123). -/
def hasReserved (s : String) : Bool :=
  s.data.any (fun c => reservedChars.contains c)

/-- The recursive worker of validate_structure (lines 119-132): for every
key of a mapping, record an issue when the key holds a reserved character,
then recurse into mapping values only, extending the path (the path
extension is conditional on the current path being empty, the issue
message is not). -/
def validateRec : List (String × PyVal) → String → List String
  | [], _ => []
  | (k, v) :: rest, cur =>
    (if hasReserved k then ["Invalid characters in name: " ++ cur ++ "/" ++ k] else []) ++
    ((match v with
      | .dict ch => validateRec ch (if cur = "" then k else cur ++ "/" ++ k)
      | _ => []) ++
    validateRec rest cur)

/-- validate_structure (lines 115-135): run the worker from an empty path;
a non-mapping input yields no issues. -/
def validate_structure (s : PyVal) : List String :=
  match s with
  | .dict d => validateRec d ""
  | _ => []

/-- A log entry of the materializer: a created file, a created folder
(each carrying the dry-run mark) or a per-node error with its message. -/
inductive LogEntry where
  | createdFile (dry : Bool) (path : String)
  | createdFolder (dry : Bool) (path : String)
  | error (path : String) (msg : String)
deriving DecidableEq, Repr

/-- The exact log strings produced by create_structure. -/
def renderLog : LogEntry → String
  | .createdFile dry p => "✅ " ++ (if dry then "[DRY RUN] " else "") ++ "Created file: " ++ p
  | .createdFolder dry p => "📁 " ++ (if dry then "[DRY RUN] " else "") ++ "Created folder: " ++ p
  | .error p m => "❌ Error creating " ++ p ++ ": " ++ m

/-- The modelled filesystem: the directories and files that exist, plus
an oracle listing the paths at which an operating-system call (directory
or file creation) raises, with the exception message. -/
structure FS where
  dirs : List String
  files : List String
  failing : List (String × String)
deriving DecidableEq, Repr

/-- Message lookup in the failure oracle. -/
def lookupMsg : List (String × String) → String → Option String
  | [], _ => none
  | (p0, m0) :: rest, p => if p0 = p then some m0 else lookupMsg rest p

/-- The exception raised by a filesystem operation at a path, if any. -/
def failAt (fs : FS) (p : String) : Option String :=
  lookupMsg fs.failing p

/-- Whether a string starts with a path separator. -/
def startsSlash (s : String) : Bool :=
  match s.data with
  | [] => false
  | c :: _ => c = '/'

/-- Whether a string ends with a path separator. -/
def endsSlash (s : String) : Bool :=
  match s.data.getLast? with
  | some c => c = '/'
  | none => false

/-- os.path.join of a base and one component (posix): an absolute
component replaces the base; otherwise a separator is interposed unless
the base is empty or already ends with one. -/
def pathJoin (a b : String) : String :=
  if startsSlash b then b
  else if a = "" || endsSlash a then a ++ b
  else a ++ "/" ++ b

/-- os.path.dirname (posix): everything up to the last separator, with
trailing separators stripped unless the head is empty or all separators. -/
def dirname (p : String) : String :=
  let head := (p.data.reverse.dropWhile (fun c => c ≠ '/')).reverse
  if head = [] then ""
  else if head.all (fun c => c = '/') then String.mk head
  else String.mk ((head.reverse.dropWhile (fun c => c = '/')).reverse)

/-- The chain of a path and its dirname-ancestors, fuelled by the path
length (dirname never grows a path). -/
def ancChain : Nat → String → List String
  | 0, _ => []
  | n + 1, p =>
    if p = "" then []
    else if dirname p = p then [p]
    else p :: ancChain n (dirname p)

/-- All directories brought into existence by os.makedirs at a path. -/
def ancestors (p : String) : List String :=
  ancChain (p.length + 1) p

/-- os.makedirs with exist_ok: raises when the oracle says so, otherwise
records the directory and its ancestors. -/
def mkdirs (fs : FS) (p : String) : Except String FS :=
  match failAt fs p with
  | some m => .error m
  | none => .ok { fs with dirs := ancestors p ++ fs.dirs }

/-- Record a file as existing (creating or truncating an empty file). -/
def addFile (fs : FS) (p : String) : FS :=
  if fs.files.contains p then fs else { fs with files := p :: fs.files }

/-- Python open of a path for writing: raises when the oracle says so,
otherwise creates or truncates the empty file. -/
def openWrite (fs : FS) (p : String) : Except String FS :=
  match failAt fs p with
  | some m => .error m
  | none => .ok (addFile fs p)

/-- os.path.exists on the modelled filesystem. -/
def fsExists (fs : FS) (p : String) : Bool :=
  fs.dirs.contains p || fs.files.contains p

/-- The file branch of create_recursive (lines 150-161): in dry-run only
log; otherwise create the parent directory when it is nonempty and does
not exist, then create the empty file; any exception becomes one error
entry carrying the full path of the node. -/
def createFileNode (dry : Bool) (full : String) (fs : FS) : List LogEntry × FS :=
  if dry then ([.createdFile true full], fs)
  else
    let parent := dirname full
    match (if parent ≠ "" && !(fsExists fs parent) then mkdirs fs parent else .ok fs) with
    | .error m => ([.error full m], fs)
    | .ok fs1 =>
      match openWrite fs1 full with
      | .error m => ([.error full m], fs1)
      | .ok fs2 => ([.createdFile false full], fs2)

mutual

/-- One (key, value) iteration of create_recursive (lines 146-192): None
and the empty string are files; a mapping is a folder followed by its
recursively created contents; a sequence is a folder whose string items
are files and whose mapping items are recursively created, an exception
on an item aborting the remaining items; any other value does nothing.
Exceptions inside the per-node try become one error entry carrying the
full joined path of the node. -/
def createOne (dry : Bool) (k : String) (v : PyVal) (cur : String) (fs : FS) :
    List LogEntry × FS :=
  let full := pathJoin cur k
  match v with
  | .null => createFileNode dry full fs
  | .str s => if s = "" then createFileNode dry full fs else ([], fs)
  | .dict ch =>
    if dry then
      let r := createEntries true ch full fs
      (.createdFolder true full :: r.1, r.2)
    else
      match mkdirs fs full with
      | .error m => ([.error full m], fs)
      | .ok fs1 =>
        let r := createEntries false ch full fs1
        (.createdFolder false full :: r.1, r.2)
  | .list items =>
    if dry then
      let r := createItems true items full fs
      (.createdFolder true full :: r.1, r.2.1)
    else
      match mkdirs fs full with
      | .error m => ([.error full m], fs)
      | .ok fs1 =>
        let r := createItems false items full fs1
        match r.2.2 with
        | some m => (.createdFolder false full :: r.1 ++ [.error full m], r.2.1)
        | none => (.createdFolder false full :: r.1, r.2.1)
  | .other => ([], fs)

/-- The loop of create_recursive over the entries of a mapping: each
entry is processed in order, threading the filesystem; a failure of one
entry never stops the loop. -/
def createEntries (dry : Bool) (entries : List (String × PyVal)) (cur : String) (fs : FS) :
    List LogEntry × FS :=
  match entries with
  | [] => ([], fs)
  | (k, v) :: rest =>
    let r1 := createOne dry k v cur fs
    let r2 := createEntries dry rest cur r1.2
    (r1.1 ++ r2.1, r2.2)

/-- The loop over the items of a sequence value (lines 179-189): a string
item is an empty file under the folder (an exception propagates, ending
the loop, the pending message in the third component); a mapping item is
created recursively; other items are skipped. -/
def createItems (dry : Bool) (items : List PyVal) (full : String) (fs : FS) :
    List LogEntry × FS × Option String :=
  match items with
  | [] => ([], fs, none)
  | item :: rest =>
    match item with
    | .str s =>
      let fp := pathJoin full s
      if dry then
        let r := createItems true rest full fs
        (.createdFile true fp :: r.1, r.2)
      else
        match openWrite fs fp with
        | .error m => ([], fs, some m)
        | .ok fs1 =>
          let r := createItems false rest full fs1
          (.createdFile false fp :: r.1, r.2)
    | .dict d =>
      let r := createEntries dry d full fs
      let r2 := createItems dry rest full r.2
      (r.1 ++ r2.1, r2.2)
    | _ => createItems dry rest full fs

end

/-- create_structure (lines 138-197): run the recursive creator on a
mapping from the base path; any other top-level value produces no log and
no filesystem change. -/
def create_structure (s : PyVal) (basePath : String) (dry : Bool) (fs : FS) :
    List LogEntry × FS :=
  match s with
  | .dict entries => createEntries dry entries basePath fs
  | _ => ([], fs)

/-- The action kind of a log entry, as the spec classifies entries. -/
inductive AKind where
  | file
  | folder
  | err
deriving DecidableEq, Repr

/-- Target path and action kind of a log entry. -/
def entryPathKind : LogEntry → String × AKind
  | .createdFile _ p => (p, .file)
  | .createdFolder _ p => (p, .folder)
  | .error p _ => (p, .err)

/-- Target path of a log entry. -/
def entryPath (e : LogEntry) : String :=
  (entryPathKind e).1

/-- Whether an entry is a creation entry carrying the dry-run mark. -/
def isDryCreated : LogEntry → Bool
  | .createdFile d _ => d
  | .createdFolder d _ => d
  | .error _ _ => false

/-- Set the dry-run mark on a creation entry. -/
def markDry : LogEntry → LogEntry
  | .createdFile _ p => .createdFile true p
  | .createdFolder _ p => .createdFolder true p
  | .error p m => .error p m

/-- Whether a log contains no error entry. -/
def noErr (ls : List LogEntry) : Bool :=
  ls.all fun e =>
    match e with
    | .error _ _ => false
    | _ => true

/-- A filesystem with nothing in it and no failing path. -/
def emptyFS : FS :=
  { dirs := [], files := [], failing := [] }

/-- Whether a value is a mapping. -/
def isDict : PyVal → Bool
  | .dict _ => true
  | _ => false

/-- Key lists without duplicates. -/
def nodupKeys : List String → Bool
  | [] => true
  | k :: rest => !(rest.contains k) && nodupKeys rest

mutual

/-- Within every mapping of the tree, the keys are pairwise distinct. -/
def nodupTree : PyVal → Bool
  | .dict entries => nodupKeys (entries.map Prod.fst) && nodupTreeL entries
  | .list items => nodupTreeI items
  | _ => true

/-- nodupTree on every value of a mapping. -/
def nodupTreeL : List (String × PyVal) → Bool
  | [] => true
  | e :: rest => nodupTree e.2 && nodupTreeL rest

/-- nodupTree on every item of a sequence. -/
def nodupTreeI : List PyVal → Bool
  | [] => true
  | v :: rest => nodupTree v && nodupTreeI rest

end

/-- Well-formedness of the ancestor stack: levels strictly decrease from
the top towards the bottom, and the bottom frame is the root at level -1. -/
def StackWF (s : List (List String × Int)) : Prop :=
  s.Chain' (fun a b => b.2 < a.2) ∧ ∃ p, s.getLast? = some (p, -1)

/-- Indentation units of a run of indentation characters: 4 per tab, 1
per other character. -/
def indentUnits : List Char → Nat
  | [] => 0
  | c :: rest => (if c = '\t' then 4 else 1) + indentUnits rest

/-- Modelled from the spec (claim C3): the scanning loop as the claim
words it, with the vertical bar listed among the connector glyphs that end
the indentation, rather than among the indentation characters. -/
def scanAuxClaim : List Char → Nat → Nat → Nat × Nat
  | [], _, indent => (indent, 0)
  | c :: rest, i, indent =>
    if c = ' ' || c = '\t' then
      scanAuxClaim rest (i + 1) (indent + (if c = '\t' then 4 else 1))
    else if c = '│' || isScanGlyph c then
      scanAdvance rest (i + 1) indent
    else (indent, i)

/-- Modelled from the spec (claim C3): indentation and content start per
the claim wording. -/
def scanLineClaim (line : List Char) : Nat × Nat :=
  scanAuxClaim line 0 0

/-- All keys of the tree reachable through mapping values only, in the
pre-order the validator visits them, each with the list of its ancestor
keys. -/
def collectKeys : List (String × PyVal) → List String → List (List String × String)
  | [], _ => []
  | (k, v) :: rest, anc =>
    (anc, k) ::
    ((match v with
      | .dict ch => collectKeys ch (anc ++ [k])
      | _ => []) ++
    collectKeys rest anc)

/-- Join path components with separators. -/
def joinSlash : List String → String
  | [] => ""
  | [x] => x
  | x :: rest => x ++ "/" ++ joinSlash rest

/-- The issue message the validator produces for an offending key with
the given ancestors: the ancestor path, then a separator, then the key
(so a top-level key is rendered with a leading separator). -/
def renderIssue (pk : List String × String) : String :=
  "Invalid characters in name: " ++ joinSlash pk.1 ++ "/" ++ pk.2

/-- Every key of every mapping in the tree (through mapping values) is
nonempty. -/
def nonemptyKeysE : List (String × PyVal) → Bool
  | [] => true
  | (k, v) :: rest =>
    (k ≠ "" : Bool) &&
    (match v with
     | .dict ch => nonemptyKeysE ch
     | _ => true) &&
    nonemptyKeysE rest

/-- The end-to-end example input of the spec. -/
def exampleText : String :=
  "project/\n├── app.py\n├── data/\n│   ├── raw.json\n│   └── clean.json\n└── models/\n    └── model.pkl"

/-- The tree the end-to-end example parses to. -/
def exampleTree : List (String × PyVal) :=
  [("project", .dict
    [("app.py", .null),
     ("data", .dict [("raw.json", .null), ("clean.json", .null)]),
     ("models", .dict [("model.pkl", .null)])])]

theorem isScanGlyph_not_indent {g : Char} (h : isScanGlyph g = true) :
    (g = ' ' || g = '\t' || g = '│') = false := by
  simp only [isScanGlyph, Bool.or_eq_true, decide_eq_true_eq] at h
  obtain ((((((((h | h) | h) | h) | h) | h) | h) | h) | h) := h <;> subst h <;> decide

theorem scanAux_indent_run (pre : List Char)
    (hpre : ∀ x ∈ pre, x = ' ' ∨ x = '\t' ∨ x = '│') :
    ∀ rest i ind, scanAux (pre ++ rest) i ind =
      scanAux rest (i + pre.length) (ind + indentUnits pre) := by
  induction pre with
  | nil => intro rest i ind; simp [indentUnits]
  | cons c pre ih =>
    intro rest i ind
    have hc : c = ' ' ∨ c = '\t' ∨ c = '│' := hpre c (by simp)
    have hcond : (c = ' ' || c = '\t' || c = '│') = true := by
      rcases hc with h | h | h <;> simp [h]
    have hrec := ih (fun x hx => hpre x (by simp [hx])) rest (i + 1)
      (ind + (if c = '\t' then 4 else 1))
    simp only [List.cons_append, List.append_eq, scanAux, hcond, if_true, indentUnits,
      List.length_cons]
    rw [hrec]
    simp only [Nat.add_assoc, Nat.add_comm, Nat.add_left_comm]

theorem scanAdvance_mid (mid : List Char)
    (hmid : ∀ x ∈ mid, x = ' ' ∨ x = '─') :
    ∀ c rest cs ind, ¬(c = ' ' ∨ c = '─') →
      scanAdvance (mid ++ c :: rest) cs ind = (ind + mid.length, cs + mid.length) := by
  induction mid with
  | nil =>
    intro c rest cs ind hc
    have hb : (c = ' ' || c = '─') = false := by
      simp only [Bool.or_eq_false_iff, decide_eq_false_iff_not]
      exact ⟨fun h => hc (Or.inl h), fun h => hc (Or.inr h)⟩
    simp [scanAdvance, hb]
  | cons x mid ih =>
    intro c rest cs ind hc
    have hx : x = ' ' ∨ x = '─' := hmid x (by simp)
    have hcond : (x = ' ' || x = '─') = true := by rcases hx with h | h <;> simp [h]
    have hrec := ih (fun y hy => hmid y (by simp [hy])) c rest (cs + 1) (ind + 1) hc
    simp only [List.cons_append, List.append_eq, scanAdvance, hcond, if_true,
      List.length_cons]
    rw [hrec]
    simp only [Prod.mk.injEq]
    constructor <;> omega

/-- Claim C3, counterexample: the claim lists the vertical bar among the
connector glyphs that mark the end of indentation, but the scanning loop
of parse_ascii treats the vertical bar as an indentation character worth
one unit.  On the line consisting of a vertical bar followed by the letter
a, the code computes indentation 1, while the claimed computation gives
indentation 0; the two computations disagree. -/
theorem indent_scan_cex :
    scanLine ['│', 'a'] = (1, 1) ∧ scanLineClaim ['│', 'a'] = (0, 1) ∧
    scanLine ['│', 'a'] ≠ scanLineClaim ['│', 'a'] := by
  refine ⟨by decide, by decide, by decide⟩

/-- Claim C3, amended: a plain space counts 1 indent unit, a tab counts 4,
and the vertical bar also counts 1 (it is indentation, not a boundary);
the first branch/corner glyph or horizontal dash encountered marks the
boundary where indentation ends, indentation accumulating over the
immediately following horizontal-dash or space characters, after which
scanning stops and the remainder of the line is the raw content region;
if no such glyph is seen, the content region starts at the first character
that is not a space, tab or vertical bar. -/
theorem indent_scan_amended (pre : List Char)
    (hpre : ∀ x ∈ pre, x = ' ' ∨ x = '\t' ∨ x = '│') :
    (∀ g mid c rest, isScanGlyph g = true → (∀ x ∈ mid, x = ' ' ∨ x = '─') →
      ¬(c = ' ' ∨ c = '─') →
      scanLine (pre ++ g :: (mid ++ c :: rest)) =
        (indentUnits pre + mid.length, pre.length + 1 + mid.length)) ∧
    (∀ c rest, ¬(c = ' ' ∨ c = '\t' ∨ c = '│') → isScanGlyph c = false →
      scanLine (pre ++ c :: rest) = (indentUnits pre, pre.length)) := by
  constructor
  · intro g mid c rest hg hmid hc
    unfold scanLine
    rw [scanAux_indent_run pre hpre]
    have hni := isScanGlyph_not_indent hg
    simp only [scanAux, hni, Bool.false_eq_true, if_false, hg, if_true]
    rw [scanAdvance_mid mid hmid c rest _ _ hc]
    simp only [Prod.mk.injEq]
    constructor <;> omega
  · intro c rest hc hng
    unfold scanLine
    rw [scanAux_indent_run pre hpre]
    have hb : (c = ' ' || c = '\t' || c = '│') = false := by
      simp only [Bool.or_eq_false_iff, decide_eq_false_iff_not]
      exact ⟨⟨fun h => hc (Or.inl h), fun h => hc (Or.inr (Or.inl h))⟩,
        fun h => hc (Or.inr (Or.inr h))⟩
    simp only [scanAux, hb, Bool.false_eq_true, if_false, hng]
    simp

/-- Claim C3, witness: the amended scan at the concrete line made of a
vertical bar, a space, a branch glyph, a dash, a space and the letter x,
and at the line made of a space and the letter a. -/
theorem indent_scan_amended_witness :
    scanLine ['│', ' ', '├', '─', ' ', 'x'] = (4, 5) ∧ scanLine [' ', 'a'] = (1, 1) := by
  constructor
  · have h := (indent_scan_amended ['│', ' '] (by decide)).1 '├' ['─', ' '] 'x' []
      (by decide) (by decide) (by decide)
    simpa using h
  · have h := (indent_scan_amended [' '] (by decide)).2 'a' [] (by decide) (by decide)
    simpa using h

theorem popStack_getLast (l : Int) :
    ∀ s : List (List String × Int), (popStack l s).getLast? = s.getLast? := by
  intro s
  induction s with
  | nil => rfl
  | cons f tail ih =>
    cases tail with
    | nil => rfl
    | cons g rest =>
      by_cases h : l ≤ f.2
      · simp only [popStack, h, if_true, ih, List.getLast?_cons_cons]
      · simp only [popStack, h, if_false]

theorem popStack_eq_dropWhile (l : Int) (hl : 0 ≤ l) :
    ∀ s : List (List String × Int), (∃ p, s.getLast? = some (p, -1)) →
      popStack l s = s.dropWhile (fun f => decide (l ≤ f.2)) := by
  intro s
  induction s with
  | nil => intro _; rfl
  | cons f tail ih =>
    intro hlast
    cases tail with
    | nil =>
      obtain ⟨p, hp⟩ := hlast
      simp only [List.getLast?_singleton, Option.some.injEq] at hp
      have h2 : f.2 = -1 := by rw [hp]
      have hneg : ¬(l ≤ f.2) := by omega
      simp [popStack, List.dropWhile_cons, hneg]
    | cons g rest =>
      have hlast2 : ∃ p, (g :: rest).getLast? = some (p, -1) := by
        obtain ⟨p, hp⟩ := hlast
        exact ⟨p, by rwa [List.getLast?_cons_cons] at hp⟩
      by_cases h : l ≤ f.2
      · simp only [popStack, h, if_true, List.dropWhile_cons, decide_eq_true_eq, ih hlast2]
      · simp [popStack, h, List.dropWhile_cons]

theorem popStack_head_lt (l : Int) (hl : 0 ≤ l) :
    ∀ s : List (List String × Int), (∃ p, s.getLast? = some (p, -1)) →
      ∀ f, (popStack l s).head? = some f → f.2 < l := by
  intro s
  induction s with
  | nil => intro _ f hf; simp [popStack] at hf
  | cons e tail ih =>
    intro hlast f hf
    cases tail with
    | nil =>
      obtain ⟨p, hp⟩ := hlast
      simp only [List.getLast?_singleton, Option.some.injEq] at hp
      simp only [popStack, List.head?_cons, Option.some.injEq] at hf
      have h2 : e.2 = -1 := by rw [hp]
      rw [← hf]
      omega
    | cons g rest =>
      have hlast2 : ∃ p, (g :: rest).getLast? = some (p, -1) := by
        obtain ⟨p, hp⟩ := hlast
        exact ⟨p, by rwa [List.getLast?_cons_cons] at hp⟩
      by_cases h : l ≤ e.2
      · rw [popStack, if_pos h] at hf
        exact ih hlast2 f hf
      · rw [popStack, if_neg h] at hf
        simp only [List.head?_cons, Option.some.injEq] at hf
        rw [← hf]
        omega

theorem stackRel_trans :
    Transitive (fun a b : List String × Int => b.2 < a.2) := by
  intro a b c hab hbc
  omega

theorem popStack_mem_lt (l : Int) (hl : 0 ≤ l) :
    ∀ s : List (List String × Int), StackWF s →
      ∀ f ∈ popStack l s, f.2 < l := by
  intro s
  induction s with
  | nil => intro _ f hf; simp [popStack] at hf
  | cons e tail ih =>
    intro hwf f hf
    cases tail with
    | nil =>
      obtain ⟨hch, p, hp⟩ := hwf
      simp only [List.getLast?_singleton, Option.some.injEq] at hp
      simp only [popStack, List.mem_singleton] at hf
      have h2 : e.2 = -1 := by rw [hp]
      rw [hf]
      omega
    | cons g rest =>
      obtain ⟨hch, p, hp⟩ := hwf
      have hwf2 : StackWF (g :: rest) :=
        ⟨hch.tail, p, by rwa [List.getLast?_cons_cons] at hp⟩
      by_cases h : l ≤ e.2
      · rw [popStack, if_pos h] at hf
        exact ih hwf2 f hf
      · rw [popStack, if_neg h] at hf
        haveI : IsTrans (List String × Int) (fun a b => b.2 < a.2) := ⟨stackRel_trans⟩
        have hpw := List.chain'_iff_pairwise.mp hch
        rcases List.mem_cons.mp hf with he | ht
        · rw [he]; omega
        · have := (List.pairwise_cons.mp hpw).1 f ht
          omega

theorem popStack_stackWF (l : Int) :
    ∀ s : List (List String × Int), StackWF s → StackWF (popStack l s) := by
  intro s
  induction s with
  | nil => intro h; exact h
  | cons e tail ih =>
    intro hwf
    cases tail with
    | nil => exact hwf
    | cons g rest =>
      obtain ⟨hch, p, hp⟩ := hwf
      by_cases h : l ≤ e.2
      · rw [popStack, if_pos h]
        exact ih ⟨hch.tail, p, by rwa [List.getLast?_cons_cons] at hp⟩
      · rw [popStack, if_neg h]
        exact ⟨hch, p, hp⟩

theorem stackWF_ne_nil {s : List (List String × Int)} (h : StackWF s) : s ≠ [] := by
  obtain ⟨_, p, hp⟩ := h
  intro he
  rw [he] at hp
  simp at hp

theorem getLast?_cons_ne_nil {α : Type} (a : α) {t : List α} (h : t ≠ []) :
    (a :: t).getLast? = t.getLast? := by
  cases t with
  | nil => exact absurd rfl h
  | cons b u => exact List.getLast?_cons_cons

theorem stepLine_stackWF (st : PState) (line : List Char) (hwf : StackWF st.stack) :
    StackWF (stepLine st line).stack := by
  unfold stepLine
  by_cases h1 : pyStrip line = []
  · simpa [h1] using hwf
  · simp only [h1, if_false]
    by_cases h2 : cleanContent line (scanLine line).2 = []
    · simpa [h2] using hwf
    · simp only [h2, if_false]
      have hnn : (0 : Int) ≤ ((scanLine line).1 : Int) := by omega
      have hwf1 : StackWF (popStack ((scanLine line).1 : Int) st.stack) :=
        popStack_stackWF _ _ hwf
      by_cases h3 : (cleanContent line (scanLine line).2).getLast? = some '/'
      · simp only [h3, if_true]
        by_cases h4 : (cleanContent line (scanLine line).2).dropLast = []
        · simpa [h4] using hwf1
        · simp only [h4, if_false]
          obtain ⟨hch1, p1, hp1⟩ := hwf1
          refine ⟨?_, p1, ?_⟩
          · rw [List.chain'_cons']
            refine ⟨?_, hch1⟩
            intro y hy
            have := popStack_head_lt ((scanLine line).1 : Int) hnn st.stack
              (by obtain ⟨_, q, hq⟩ := hwf; exact ⟨q, hq⟩) y
            simp only [Option.mem_def] at hy
            exact this hy
          · rw [getLast?_cons_ne_nil _ (stackWF_ne_nil ⟨hch1, p1, hp1⟩)]
            exact hp1
      · simp only [h3, if_false]
        exact hwf1

/-- Claim C4: the ASCII parser stack is seeded with the root at level -1;
for a line of indentation l (a natural number, so 0 ≤ l), popping removes
exactly the frames whose recorded level is at least l (a dropWhile from
the top), the root frame is never popped (the bottom of the stack is
preserved), and after popping the top frame - the parent receiving the
entry - has level strictly below l, as has every remaining frame; the
well-formedness of the stack (strictly decreasing levels over a root at
level -1) is preserved by every line step. -/
theorem stack_discipline :
    (parseInit.stack = [([], -1)]) ∧
    (∀ (l : Int) (s : List (List String × Int)), 0 ≤ l → StackWF s →
      (popStack l s).getLast? = s.getLast? ∧
      popStack l s = s.dropWhile (fun f => decide (l ≤ f.2)) ∧
      (∀ f, (popStack l s).head? = some f → f.2 < l) ∧
      (∀ f ∈ popStack l s, f.2 < l)) ∧
    (∀ st line, StackWF st.stack → StackWF (stepLine st line).stack) := by
  refine ⟨rfl, ?_, stepLine_stackWF⟩
  intro l s hl hwf
  have hex : ∃ p, s.getLast? = some (p, -1) := by
    obtain ⟨_, p, hp⟩ := hwf
    exact ⟨p, hp⟩
  exact ⟨popStack_getLast l s, popStack_eq_dropWhile l hl s hex,
    popStack_head_lt l hl s hex, popStack_mem_lt l hl s hwf⟩

/-- Claim C4, witness: the popping contract at the singleton root stack
with indentation 0, and well-formedness preservation across the first
line of a concrete parse. -/
theorem stack_discipline_witness :
    (popStack 0 [(([] : List String), (-1 : Int))]).getLast? = some ([], -1) ∧
    StackWF (stepLine parseInit ['a', '/']).stack := by
  have hwf : StackWF [(([] : List String), (-1 : Int))] := by
    constructor
    · simp
    · exact ⟨[], rfl⟩
  constructor
  · have h := (stack_discipline.2.1 0 [([], -1)] (by norm_num) hwf).1
    rw [h]
    rfl
  · exact stack_discipline.2.2 parseInit ['a', '/'] hwf

/-- Claim C8: a directory marker whose name is empty after removing the
trailing separator - its cleaned content is just the separator - changes
nothing in the tree and pushes no stack frame: the line step only performs
the reconciliation popping.  Hence deeper-indented lines that follow
attach to the previous open ancestor, as the concrete parse shows. -/
theorem empty_dir_marker :
    (∀ st line, pyStrip line ≠ [] → cleanContent line (scanLine line).2 = ['/'] →
      stepLine st line =
        { root := st.root, stack := popStack ((scanLine line).1 : Int) st.stack }) ∧
    parse_ascii "a/\n  /\n    b" = [("a", .dict [("b", .null)])] := by
  constructor
  · intro st line h1 h2
    unfold stepLine
    rw [if_neg h1]
    simp only [h2]
    norm_num
  · rfl

/-- Claim C8, witness: the line consisting of a single separator is
nonblank, cleans to the lone separator, and its step only pops. -/
theorem empty_dir_marker_witness :
    pyStrip ['/'] ≠ [] ∧ cleanContent ['/'] (scanLine ['/']).2 = ['/'] ∧
    stepLine parseInit ['/'] =
      { root := parseInit.root, stack := popStack ((scanLine ['/']).1 : Int) parseInit.stack } := by
  refine ⟨by decide, by decide, empty_dir_marker.1 parseInit ['/'] (by decide) (by decide)⟩

theorem nodupKeys_iff : ∀ l : List String, nodupKeys l = true ↔ l.Nodup := by
  intro l
  induction l with
  | nil => simp [nodupKeys]
  | cons k rest ih =>
    simp [nodupKeys, Bool.and_eq_true, List.nodup_cons, ih]

theorem keys_dictInsert (k : String) (v : PyVal) :
    ∀ d : List (String × PyVal), (dictInsert k v d).map Prod.fst =
      if k ∈ d.map Prod.fst then d.map Prod.fst else d.map Prod.fst ++ [k] := by
  intro d
  induction d with
  | nil => simp [dictInsert]
  | cons e rest ih =>
    obtain ⟨k0, v0⟩ := e
    by_cases h : k0 = k
    · subst h
      simp [dictInsert]
    · have hne : ¬(k = k0) := fun hh => h hh.symm
      simp only [dictInsert, h, if_false, List.map_cons, List.mem_cons, hne, false_or, ih]
      by_cases hm : k ∈ rest.map Prod.fst
      · simp [hm]
      · simp [hm]

theorem mem_dictInsert (k : String) (v : PyVal) :
    ∀ d e, e ∈ dictInsert k v d → e.2 = v ∨ e ∈ d := by
  intro d
  induction d with
  | nil =>
    intro e he
    simp only [dictInsert, List.mem_singleton] at he
    exact Or.inl (by rw [he])
  | cons e0 rest ih =>
    intro e he
    obtain ⟨k0, v0⟩ := e0
    by_cases h : k0 = k
    · subst h
      simp only [dictInsert, if_true] at he
      rcases List.mem_cons.mp he with h1 | h1
      · exact Or.inl (by rw [h1])
      · exact Or.inr (List.mem_cons.mpr (Or.inr h1))
    · simp only [dictInsert, h, if_false] at he
      rcases List.mem_cons.mp he with h1 | h1
      · exact Or.inr (List.mem_cons.mpr (Or.inl h1))
      · rcases ih e h1 with h2 | h2
        · exact Or.inl h2
        · exact Or.inr (List.mem_cons.mpr (Or.inr h2))

theorem lookupD_dictInsert (k : String) (v : PyVal) :
    ∀ d, lookupD (dictInsert k v d) k = some v := by
  intro d
  induction d with
  | nil => simp [dictInsert, lookupD]
  | cons e rest ih =>
    obtain ⟨k0, v0⟩ := e
    by_cases h : k0 = k
    · subst h
      simp [dictInsert, lookupD]
    · simp [dictInsert, lookupD, h, ih]

theorem lookupD_mem : ∀ (d : List (String × PyVal)) p w, lookupD d p = some w → (p, w) ∈ d := by
  intro d
  induction d with
  | nil => intro p w h; simp [lookupD] at h
  | cons e rest ih =>
    intro p w h
    obtain ⟨k0, v0⟩ := e
    by_cases hk : k0 = p
    · subst hk
      simp only [lookupD, if_true, Option.some.injEq] at h
      exact List.mem_cons.mpr (Or.inl (by rw [h]))
    · simp only [lookupD, hk, if_false] at h
      exact List.mem_cons.mpr (Or.inr (ih p w h))

theorem nodupTreeL_iff : ∀ d : List (String × PyVal),
    nodupTreeL d = true ↔ ∀ e ∈ d, nodupTree e.2 = true := by
  intro d
  induction d with
  | nil => simp [nodupTreeL]
  | cons e rest ih => simp [nodupTreeL, Bool.and_eq_true, ih]

theorem updateValue_keys (d : List (String × PyVal)) (p : String) (w : PyVal) :
    (updateValue d p w).map Prod.fst = d.map Prod.fst := by
  unfold updateValue
  rw [List.map_map]
  apply List.map_congr_left
  intro e _
  by_cases h : e.1 = p <;> simp [h]

theorem mem_updateValue (d : List (String × PyVal)) (p : String) (w : PyVal) :
    ∀ e ∈ updateValue d p w, e.2 = w ∨ e ∈ d := by
  intro e he
  unfold updateValue at he
  obtain ⟨e0, he0, heq⟩ := List.mem_map.mp he
  by_cases h : e0.1 = p
  · rw [if_pos h] at heq
    exact Or.inl (by rw [← heq])
  · rw [if_neg h] at heq
    exact Or.inr (heq ▸ he0)

theorem setAtPath_nodup : ∀ (path : List String) (k : String) (v : PyVal)
    (d : List (String × PyVal)), nodupTree (.dict d) = true → nodupTree v = true →
    nodupTree (.dict (setAtPath path k v d)) = true := by
  intro path
  induction path with
  | nil =>
    intro k v d hd hv
    simp only [setAtPath]
    simp only [nodupTree, Bool.and_eq_true, nodupKeys_iff, nodupTreeL_iff] at hd ⊢
    obtain ⟨hk, hvals⟩ := hd
    constructor
    · rw [keys_dictInsert]
      by_cases hm : k ∈ d.map Prod.fst
      · simp [hm, hk]
      · simp only [hm, if_false]
        simp [List.nodup_append, hk, hm]
    · intro e he
      rcases mem_dictInsert k v d e he with h | h
      · rw [h]; exact hv
      · exact hvals e h
  | cons p ps ih =>
    intro k v d hd hv
    simp only [setAtPath]
    cases hlook : lookupD d p with
    | none => exact hd
    | some w =>
      cases w with
      | dict ch =>
        simp only [nodupTree, Bool.and_eq_true, nodupKeys_iff, nodupTreeL_iff] at hd ⊢
        obtain ⟨hk, hvals⟩ := hd
        have hch : nodupTree (.dict ch) = true := hvals (p, .dict ch) (lookupD_mem d p _ hlook)
        have hrec := ih k v ch hch hv
        constructor
        · rw [updateValue_keys]; exact hk
        · intro e he
          rcases mem_updateValue d p _ e he with h | h
          · rw [h]; exact hrec
          · exact hvals e h
      | null => exact hd
      | str s => exact hd
      | list items => exact hd
      | other => exact hd

theorem stepLine_nodup (st : PState) (line : List Char)
    (h : nodupTree (.dict st.root) = true) :
    nodupTree (.dict (stepLine st line).root) = true := by
  unfold stepLine
  by_cases h1 : pyStrip line = []
  · simpa [h1] using h
  · simp only [h1, if_false]
    by_cases h2 : cleanContent line (scanLine line).2 = []
    · simpa [h2] using h
    · simp only [h2, if_false]
      by_cases h3 : (cleanContent line (scanLine line).2).getLast? = some '/'
      · simp only [h3, if_true]
        by_cases h4 : (cleanContent line (scanLine line).2).dropLast = []
        · simpa [h4] using h
        · simp only [h4, if_false]
          exact setAtPath_nodup _ _ _ _ h rfl
      · simp only [h3, if_false]
        exact setAtPath_nodup _ _ _ _ h rfl

theorem foldl_stepLine_nodup : ∀ (lines : List (List Char)) (st : PState),
    nodupTree (.dict st.root) = true →
    nodupTree (.dict ((lines.foldl stepLine st).root)) = true := by
  intro lines
  induction lines with
  | nil => intro st h; exact h
  | cons l rest ih =>
    intro st h
    exact ih (stepLine st l) (stepLine_nodup st l h)

/-- Claim C7: within one mapping the keys are unique - every tree the
ASCII parser produces satisfies the no-duplicate-keys invariant - and a
later declaration under an already-used name replaces the earlier value
(assignment into the mapping makes the key hold the new value); concretely,
declaring a name as a file and then as a directory at the same indentation
leaves exactly one child of that name whose kind is the later one, and
symmetrically. -/
theorem last_write_wins :
    (∀ text, nodupTree (.dict (parse_ascii text)) = true) ∧
    (∀ d k v, lookupD (dictInsert k v d) k = some v) ∧
    parse_ascii "a\na/" = [("a", .dict [])] ∧
    parse_ascii "a/\na" = [("a", .null)] := by
  refine ⟨?_, fun d k v => lookupD_dictInsert k v d, rfl, rfl⟩
  intro text
  exact foldl_stepLine_nodup _ parseInit rfl

/-- Claim C10: when the top-level parsed value is not a mapping (a bare
scalar, null, or a sequence), create_structure performs no filesystem
action and returns an empty log, whatever the dry-run flag. -/
theorem non_mapping_noop :
    ∀ (s : PyVal) (b : String) (dry : Bool) (fs : FS), isDict s = false →
      create_structure s b dry fs = ([], fs) := by
  intro s b dry fs h
  cases s <;> simp_all [create_structure, isDict]

/-- Claim C10, witness: a top-level sequence is not a mapping and
produces an empty log with the filesystem unchanged. -/
theorem non_mapping_noop_witness :
    isDict (.list [.str "a"]) = false ∧
    create_structure (.list [.str "a"]) "/base" false emptyFS = ([], emptyFS) :=
  ⟨rfl, non_mapping_noop _ _ _ _ rfl⟩

/-- Claim C9, counterexample: the claim says the dry-run materialization
of the end-to-end example produces five log entries; it produces seven
(one directory or file entry per node of the parsed tree). -/
theorem end_to_end_cex :
    (create_structure (.dict (parse_ascii exampleText)) "/base" true emptyFS).1.length = 7 ∧
    (create_structure (.dict (parse_ascii exampleText)) "/base" true emptyFS).1.length ≠ 5 := by
  have hp : parse_ascii exampleText = exampleTree := rfl
  rw [hp]
  constructor <;>
    simp [create_structure, createEntries, createOne, createFileNode, exampleTree,
      pathJoin, startsSlash, endsSlash]

/-- Claim C9, amended: the end-to-end example parses to the single
top-level directory project containing the file app.py, the directory
data with the files raw.json and clean.json, and the directory models
with the file model.pkl; its dry-run materialization produces seven log
entries (directory, file, directory, two files, directory, file) in
pre-order, all marked dry-run, and leaves the filesystem untouched. -/
theorem end_to_end_amended :
    parse_ascii exampleText = exampleTree ∧
    (create_structure (.dict exampleTree) "/base" true emptyFS).1 =
      [.createdFolder true "/base/project",
       .createdFile true "/base/project/app.py",
       .createdFolder true "/base/project/data",
       .createdFile true "/base/project/data/raw.json",
       .createdFile true "/base/project/data/clean.json",
       .createdFolder true "/base/project/models",
       .createdFile true "/base/project/models/model.pkl"] ∧
    (create_structure (.dict exampleTree) "/base" true emptyFS).2 = emptyFS := by
  refine ⟨rfl, ?_, ?_⟩ <;>
    simp [create_structure, createEntries, createOne, createFileNode, exampleTree,
      pathJoin, startsSlash, endsSlash]

/-- Claim C5, counterexample: the claim says any scalar value that is not
a mapping and not a sequence is treated as a file and logged; but for a
non-empty string value the materializer matches no branch at all: no log
entry is appended and nothing is created, in dry-run and in real mode. -/
theorem scalar_file_cex :
    create_structure (.dict [("a", .str "x")]) "/base" true emptyFS = ([], emptyFS) ∧
    create_structure (.dict [("a", .str "x")]) "/base" false emptyFS = ([], emptyFS) := by
  constructor <;> simp [create_structure, createEntries, createOne]

/-- Claim C5, amended: a null value - and also an empty-string value -
denotes a file: materializing it logs one Created-File entry for the
joined path (and, outside dry-run, creates the empty file when the
operations succeed); any other scalar value (a non-empty string, or any
other non-mapping non-sequence value) is silently skipped: no log entry
and no filesystem action. -/
theorem scalar_file_amended :
    (∀ k cur fs, createOne true k .null cur fs =
      ([.createdFile true (pathJoin cur k)], fs)) ∧
    (∀ k cur fs, createOne true k (.str "") cur fs =
      ([.createdFile true (pathJoin cur k)], fs)) ∧
    (∀ k s cur fs dry, s ≠ "" → createOne dry k (.str s) cur fs = ([], fs)) ∧
    (∀ (k cur : String) (fs : FS) dry, createOne dry k .other cur fs = ([], fs)) ∧
    (∀ k cur fs, fsExists fs (dirname (pathJoin cur k)) = true →
      failAt fs (pathJoin cur k) = none →
      createOne false k .null cur fs =
        ([.createdFile false (pathJoin cur k)], addFile fs (pathJoin cur k))) := by
  refine ⟨?_, ?_, ?_, ?_, ?_⟩
  · intro k cur fs
    simp [createOne, createFileNode]
  · intro k cur fs
    simp [createOne, createFileNode]
  · intro k s cur fs dry hs
    simp [createOne, hs]
  · intro k cur fs dry
    simp [createOne]
  · intro k cur fs hex hfail
    simp [createOne, createFileNode, hex, openWrite, hfail]

/-- Claim C5, witness: with the parent directory existing and no failing
path, a null value yields one Created-File entry and the file; a
non-empty string value yields nothing. -/
theorem scalar_file_amended_witness :
    createOne false "f" .null "/b" { dirs := ["/b"], files := [], failing := [] } =
      ([.createdFile false "/b/f"],
        addFile { dirs := ["/b"], files := [], failing := [] } "/b/f") ∧
    createOne false "k" (.str "x") "/b" { dirs := ["/b"], files := [], failing := [] } =
      ([], { dirs := ["/b"], files := [], failing := [] }) := by
  refine ⟨scalar_file_amended.2.2.2.2 "f" "/b" _ (by decide) (by decide),
    scalar_file_amended.2.2.1 "k" "x" "/b" _ false (by decide)⟩

/-- Claim C2, counterexample: for children given as a sequence, a failure
on one item does not continue with the remaining items: with the tree
holding directory d with the sequence of file items a and b, and the
operating system failing at the path of a, the run logs the folder entry
and one error entry bearing the path of the folder d (not of the failing
node a), and the sibling item b is neither processed nor logged. -/
theorem error_continuation_cex :
    (create_structure (.dict [("d", .list [.str "a", .str "b"])]) "/base" false
        { dirs := [], files := [], failing := [("/base/d/a", "denied")] }).1 =
      [.createdFolder false "/base/d", .error "/base/d" "denied"] ∧
    ((create_structure (.dict [("d", .list [.str "a", .str "b"])]) "/base" false
        { dirs := [], files := [], failing := [("/base/d/a", "denied")] }).1.all
      (fun e => entryPath e ≠ "/base/d/a")) = true ∧
    ((create_structure (.dict [("d", .list [.str "a", .str "b"])]) "/base" false
        { dirs := [], files := [], failing := [("/base/d/a", "denied")] }).1.all
      (fun e => entryPath e ≠ "/base/d/b")) = true := by
  refine ⟨?_, ?_, ?_⟩ <;>
    simp [create_structure, createEntries, createOne, createItems, mkdirs, failAt,
      lookupMsg, openWrite, pathJoin, startsSlash, endsSlash, entryPath, entryPathKind]

/-- Claim C2, amended: for children given as a mapping, processing of the
entry list always continues past each node - the log and state of a cons
are those of the head node followed by those of the remaining siblings
from the resulting state - and a node whose creation fails contributes
exactly one error entry carrying that node's full path and the underlying
message, leaving the filesystem unchanged (shown for a failing directory
node and for a failing file node); for children given as a sequence,
however, a failing string item ends the processing of the remaining items
of that sequence and is recorded as one error entry bearing the parent
folder's path (not the item's path) with the underlying message. -/
theorem error_continuation_amended :
    (∀ dry k v rest cur fs,
      createEntries dry ((k, v) :: rest) cur fs =
        ((createOne dry k v cur fs).1 ++
          (createEntries dry rest cur (createOne dry k v cur fs).2).1,
         (createEntries dry rest cur (createOne dry k v cur fs).2).2)) ∧
    (∀ k ch cur fs m, failAt fs (pathJoin cur k) = some m →
      createOne false k (.dict ch) cur fs = ([.error (pathJoin cur k) m], fs)) ∧
    (∀ k cur fs m,
      (dirname (pathJoin cur k) = "" ∨ fsExists fs (dirname (pathJoin cur k)) = true) →
      failAt fs (pathJoin cur k) = some m →
      createOne false k .null cur fs = ([.error (pathJoin cur k) m], fs)) ∧
    (∀ k s more cur fs m, failAt fs (pathJoin cur k) = none →
      failAt fs (pathJoin (pathJoin cur k) s) = some m →
      (createOne false k (.list (.str s :: more)) cur fs).1 =
        [.createdFolder false (pathJoin cur k), .error (pathJoin cur k) m]) := by
  refine ⟨?_, ?_, ?_, ?_⟩
  · intro dry k v rest cur fs
    simp [createEntries]
  · intro k ch cur fs m hfail
    simp [createOne, mkdirs, hfail]
  · intro k cur fs m hpar hfail
    rcases hpar with h | h
    · simp [createOne, createFileNode, h, openWrite, hfail]
    · simp [createOne, createFileNode, h, openWrite, hfail]
  · intro k s more cur fs m hok hfail
    rw [failAt] at hok hfail
    simp [createOne, createItems, mkdirs, failAt, hok, openWrite, hfail]

/-- Claim C2, witness: a failing directory node yields exactly its error
entry and leaves the filesystem unchanged; the cons equation at a
concrete entry list; a failing first sequence item yields the folder
entry and the folder-path error entry. -/
theorem error_continuation_amended_witness :
    createEntries false [("d", PyVal.dict []), ("e", PyVal.null)] "/b"
        { dirs := ["/b"], files := [], failing := [("/b/d", "boom")] } =
      ((createOne false "d" (.dict []) "/b"
          { dirs := ["/b"], files := [], failing := [("/b/d", "boom")] }).1 ++
        (createEntries false [("e", PyVal.null)] "/b"
          (createOne false "d" (.dict []) "/b"
            { dirs := ["/b"], files := [], failing := [("/b/d", "boom")] }).2).1,
       (createEntries false [("e", PyVal.null)] "/b"
          (createOne false "d" (.dict []) "/b"
            { dirs := ["/b"], files := [], failing := [("/b/d", "boom")] }).2).2) ∧
    createOne false "d" (.dict []) "/b"
        { dirs := ["/b"], files := [], failing := [("/b/d", "boom")] } =
      ([.error "/b/d" "boom"], { dirs := ["/b"], files := [], failing := [("/b/d", "boom")] }) ∧
    (createOne false "d" (.list [.str "a"]) "/b"
        { dirs := ["/b"], files := [], failing := [("/b/d/a", "denied")] }).1 =
      [.createdFolder false "/b/d", .error "/b/d" "denied"] := by
  refine ⟨error_continuation_amended.1 false "d" (.dict []) [("e", PyVal.null)] "/b" _,
    error_continuation_amended.2.1 "d" [] "/b" _ "boom" (by decide),
    error_continuation_amended.2.2.2 "d" "a" [] "/b" _ "denied" (by decide) (by decide)⟩

theorem dry_joint : ∀ n : Nat,
    (∀ (k : String) (v : PyVal) (cur : String) (fs : FS), sizeOf v ≤ n →
      (createOne true k v cur fs).2 = fs ∧
      (createOne true k v cur fs).1.all isDryCreated = true) ∧
    (∀ (es : List (String × PyVal)) (cur : String) (fs : FS), sizeOf es ≤ n →
      (createEntries true es cur fs).2 = fs ∧
      (createEntries true es cur fs).1.all isDryCreated = true) ∧
    (∀ (its : List PyVal) (full : String) (fs : FS), sizeOf its ≤ n →
      (createItems true its full fs).2.1 = fs ∧
      (createItems true its full fs).1.all isDryCreated = true ∧
      (createItems true its full fs).2.2 = none) := by
  intro n
  induction n using Nat.strong_induction_on with
  | _ n ih =>
    refine ⟨?_, ?_, ?_⟩
    · intro k v cur fs hs
      cases v with
      | null => simp [createOne, createFileNode, isDryCreated]
      | str s =>
        by_cases h : s = "" <;> simp [createOne, createFileNode, h, isDryCreated]
      | dict ch =>
        have hlt : sizeOf ch < n := by
          have h := hs
          simp only [PyVal.dict.sizeOf_spec] at h
          omega
        obtain ⟨h1, h2⟩ := (ih (sizeOf ch) hlt).2.1 ch (pathJoin cur k) fs le_rfl
        simp [createOne, isDryCreated, h1, h2]
      | list items =>
        have hlt : sizeOf items < n := by
          have h := hs
          simp only [PyVal.list.sizeOf_spec] at h
          omega
        obtain ⟨h1, h2, h3⟩ := (ih (sizeOf items) hlt).2.2 items (pathJoin cur k) fs le_rfl
        simp [createOne, isDryCreated, h1, h2]
      | other => simp [createOne]
    · intro es cur fs hs
      cases es with
      | nil => simp [createEntries]
      | cons e rest =>
        obtain ⟨k, v⟩ := e
        have hv : sizeOf v < n := by
          have h := hs
          simp only [List.cons.sizeOf_spec, Prod.mk.sizeOf_spec] at h
          omega
        have hr : sizeOf rest < n := by
          have h := hs
          simp only [List.cons.sizeOf_spec, Prod.mk.sizeOf_spec] at h
          omega
        obtain ⟨h1, h2⟩ := (ih (sizeOf v) hv).1 k v cur fs le_rfl
        obtain ⟨h3, h4⟩ := (ih (sizeOf rest) hr).2.1 rest cur fs le_rfl
        simp [createEntries, h1, h2, h3, h4, List.all_append]
    · intro its full fs hs
      cases its with
      | nil => simp [createItems]
      | cons item rest =>
        have hr : sizeOf rest < n := by
          have h := hs
          simp only [List.cons.sizeOf_spec] at h
          have hpos : 0 < sizeOf item := by cases item <;> simp
          omega
        cases item with
        | str s =>
          obtain ⟨h1, h2, h3⟩ := (ih (sizeOf rest) hr).2.2 rest full fs le_rfl
          simp [createItems, isDryCreated, h1, h2, h3]
        | dict d =>
          have hd : sizeOf d < n := by
            have h := hs
            simp only [List.cons.sizeOf_spec, PyVal.dict.sizeOf_spec] at h
            omega
          obtain ⟨h1, h2⟩ := (ih (sizeOf d) hd).2.1 d full fs le_rfl
          obtain ⟨h3, h4, h5⟩ := (ih (sizeOf rest) hr).2.2 rest full fs le_rfl
          simp [createItems, h1, h2, h3, h4, h5, List.all_append]
        | null =>
          obtain ⟨h1, h2, h3⟩ := (ih (sizeOf rest) hr).2.2 rest full fs le_rfl
          simp [createItems, h1, h2, h3]
        | list l2 =>
          obtain ⟨h1, h2, h3⟩ := (ih (sizeOf rest) hr).2.2 rest full fs le_rfl
          simp [createItems, h1, h2, h3]
        | other =>
          obtain ⟨h1, h2, h3⟩ := (ih (sizeOf rest) hr).2.2 rest full fs le_rfl
          simp [createItems, h1, h2, h3]

theorem createFileNode_corr (full : String) (fs1 fs2 : FS)
    (h : noErr (createFileNode false full fs2).1 = true) :
    (createFileNode true full fs1).1 = (createFileNode false full fs2).1.map markDry := by
  simp only [createFileNode, Bool.false_eq_true, if_false, if_true] at h ⊢
  cases h1 : (if dirname full ≠ "" && !(fsExists fs2 (dirname full))
      then mkdirs fs2 (dirname full) else Except.ok fs2) with
  | error m => rw [h1] at h; simp [noErr] at h
  | ok fs2a =>
    rw [h1] at h
    simp only [] at h
    cases h2 : openWrite fs2a full with
    | error m => rw [h2] at h; simp [noErr] at h
    | ok fs3 =>
      simp only []
      rw [h2]
      simp [markDry]

theorem corr_joint : ∀ n : Nat,
    (∀ (k : String) (v : PyVal) (cur : String) (fs1 fs2 : FS), sizeOf v ≤ n →
      noErr (createOne false k v cur fs2).1 = true →
      (createOne true k v cur fs1).1 = (createOne false k v cur fs2).1.map markDry) ∧
    (∀ (es : List (String × PyVal)) (cur : String) (fs1 fs2 : FS), sizeOf es ≤ n →
      noErr (createEntries false es cur fs2).1 = true →
      (createEntries true es cur fs1).1 = (createEntries false es cur fs2).1.map markDry) ∧
    (∀ (its : List PyVal) (full : String) (fs1 fs2 : FS), sizeOf its ≤ n →
      (createItems false its full fs2).2.2 = none →
      noErr (createItems false its full fs2).1 = true →
      (createItems true its full fs1).1 = (createItems false its full fs2).1.map markDry) := by
  intro n
  induction n using Nat.strong_induction_on with
  | _ n ih =>
    refine ⟨?_, ?_, ?_⟩
    · intro k v cur fs1 fs2 hs hne
      cases v with
      | null =>
        simp only [createOne] at hne ⊢
        exact createFileNode_corr (pathJoin cur k) fs1 fs2 hne
      | str s =>
        by_cases h : s = ""
        · subst h
          simp only [createOne, if_true] at hne ⊢
          exact createFileNode_corr (pathJoin cur k) fs1 fs2 hne
        · simp [createOne, h]
      | dict ch =>
        have hlt : sizeOf ch < n := by
          have h := hs
          simp only [PyVal.dict.sizeOf_spec] at h
          omega
        simp only [createOne] at hne ⊢
        cases h1 : mkdirs fs2 (pathJoin cur k) with
        | error m => rw [h1] at hne; simp [noErr] at hne
        | ok fs2a =>
          rw [h1] at hne
          simp only [noErr, List.all_cons, Bool.true_and] at hne
          have hrec := (ih (sizeOf ch) hlt).2.1 ch (pathJoin cur k) fs1 fs2a le_rfl hne
          simp [h1, hrec, markDry]
      | list items =>
        have hlt : sizeOf items < n := by
          have h := hs
          simp only [PyVal.list.sizeOf_spec] at h
          omega
        simp only [createOne, Bool.false_eq_true, if_false, if_true] at hne ⊢
        cases h1 : mkdirs fs2 (pathJoin cur k) with
        | error m => rw [h1] at hne; simp [noErr] at hne
        | ok fs2a =>
          rw [h1] at hne
          simp only [] at hne
          cases h2 : (createItems false items (pathJoin cur k) fs2a).2.2 with
          | some m =>
            rw [h2] at hne
            simp [noErr, List.all_append] at hne
          | none =>
            rw [h2] at hne
            simp only [] at hne
            simp only [noErr, List.all_cons, Bool.true_and] at hne
            have hrec := (ih (sizeOf items) hlt).2.2 items (pathJoin cur k) fs1 fs2a
              le_rfl h2 hne
            simp [h1, h2, hrec, markDry]
      | other => simp [createOne]
    · intro es cur fs1 fs2 hs hne
      cases es with
      | nil => simp [createEntries]
      | cons e rest =>
        obtain ⟨k, v⟩ := e
        have hv : sizeOf v < n := by
          have h := hs
          simp only [List.cons.sizeOf_spec, Prod.mk.sizeOf_spec] at h
          omega
        have hr : sizeOf rest < n := by
          have h := hs
          simp only [List.cons.sizeOf_spec, Prod.mk.sizeOf_spec] at h
          omega
        simp only [createEntries] at hne ⊢
        simp only [noErr, List.all_append] at hne
        obtain ⟨hne1, hne2⟩ := Bool.and_eq_true_iff.mp hne
        have hrec1 := (ih (sizeOf v) hv).1 k v cur fs1 fs2 le_rfl hne1
        have hrec2 := (ih (sizeOf rest) hr).2.1 rest cur
          ((createOne true k v cur fs1).2) ((createOne false k v cur fs2).2) le_rfl hne2
        simp [hrec1, hrec2, List.map_append]
    · intro its full fs1 fs2 hs hexc hne
      cases its with
      | nil => simp [createItems]
      | cons item rest =>
        have hr : sizeOf rest < n := by
          have h := hs
          simp only [List.cons.sizeOf_spec] at h
          have hpos : 0 < sizeOf item := by cases item <;> simp
          omega
        cases item with
        | str s =>
          simp only [createItems] at hexc hne ⊢
          cases h2 : openWrite fs2 (pathJoin full s) with
          | error m => rw [h2] at hexc; simp at hexc
          | ok fs2a =>
            rw [h2] at hexc hne
            simp only [noErr, List.all_cons, Bool.true_and] at hne
            have hrec := (ih (sizeOf rest) hr).2.2 rest full fs1 fs2a le_rfl hexc hne
            simp [h2, hrec, markDry]
        | dict d =>
          have hd : sizeOf d < n := by
            have h := hs
            simp only [List.cons.sizeOf_spec, PyVal.dict.sizeOf_spec] at h
            omega
          simp only [createItems] at hexc hne ⊢
          simp only [noErr, List.all_append] at hne
          obtain ⟨hne1, hne2⟩ := Bool.and_eq_true_iff.mp hne
          have hrec1 := (ih (sizeOf d) hd).2.1 d full fs1 fs2 le_rfl hne1
          have hrec2 := (ih (sizeOf rest) hr).2.2 rest full
            ((createEntries true d full fs1).2) ((createEntries false d full fs2).2)
            le_rfl hexc hne2
          simp [hrec1, hrec2, List.map_append]
        | null =>
          simp only [createItems] at hexc hne ⊢
          exact (ih (sizeOf rest) hr).2.2 rest full fs1 fs2 le_rfl hexc hne
        | list l2 =>
          simp only [createItems] at hexc hne ⊢
          exact (ih (sizeOf rest) hr).2.2 rest full fs1 fs2 le_rfl hexc hne
        | other =>
          simp only [createItems] at hexc hne ⊢
          exact (ih (sizeOf rest) hr).2.2 rest full fs1 fs2 le_rfl hexc hne

/-- Claim C1, counterexample: dry-run never touches the filesystem, but
the log path-and-kind sets of dry and wet runs can differ: with one file
node whose path the operating system refuses to create, the dry run logs
it as a created file while the wet run logs it as an error, so the action
kinds disagree at the same path. -/
theorem dry_run_purity_cex :
    (create_structure (.dict [("a", .null)]) "/base" true
        { dirs := [], files := [], failing := [("/base/a", "denied")] }).2 =
      { dirs := [], files := [], failing := [("/base/a", "denied")] } ∧
    ((create_structure (.dict [("a", .null)]) "/base" true
        { dirs := [], files := [], failing := [("/base/a", "denied")] }).1.map entryPathKind) =
      [("/base/a", .file)] ∧
    ((create_structure (.dict [("a", .null)]) "/base" false
        { dirs := [], files := [], failing := [("/base/a", "denied")] }).1.map entryPathKind) =
      [("/base/a", .err)] ∧
    ((create_structure (.dict [("a", .null)]) "/base" true
        { dirs := [], files := [], failing := [("/base/a", "denied")] }).1.map entryPathKind) ≠
      ((create_structure (.dict [("a", .null)]) "/base" false
        { dirs := [], files := [], failing := [("/base/a", "denied")] }).1.map entryPathKind) := by
  refine ⟨?_, ?_, ?_, ?_⟩ <;>
    simp [create_structure, createEntries, createOne, createFileNode, pathJoin, startsSlash,
      endsSlash, dirname, mkdirs, openWrite, failAt, lookupMsg, fsExists, entryPathKind,
      ancestors, ancChain, addFile]

/-- Claim C1, amended: a dry-run materialization leaves the filesystem
exactly as it was and marks every one of its entries as a dry-run
creation (it never logs errors); and whenever the non-dry-run
materialization over the same tree, base path and filesystem succeeds
everywhere (its log has no error entry), the dry-run log is exactly the
wet log with every entry marked dry-run - the same paths and action kinds
in the same order. -/
theorem dry_run_purity (s : PyVal) (b : String) (fs : FS) :
    (create_structure s b true fs).2 = fs ∧
    (create_structure s b true fs).1.all isDryCreated = true ∧
    (noErr (create_structure s b false fs).1 = true →
      (create_structure s b true fs).1 = (create_structure s b false fs).1.map markDry) := by
  refine ⟨?_, ?_, ?_⟩
  · cases s with
    | dict entries => exact ((dry_joint (sizeOf entries)).2.1 entries b fs le_rfl).1
    | null => rfl
    | str s0 => rfl
    | list l0 => rfl
    | other => rfl
  · cases s with
    | dict entries => exact ((dry_joint (sizeOf entries)).2.1 entries b fs le_rfl).2
    | null => rfl
    | str s0 => rfl
    | list l0 => rfl
    | other => rfl
  · intro h
    cases s with
    | dict entries => exact (corr_joint (sizeOf entries)).2.1 entries b fs fs le_rfl h
    | null => rfl
    | str s0 => rfl
    | list l0 => rfl
    | other => rfl

/-- Claim C1, witness: on a one-file tree over an empty filesystem the
wet run has no errors, and the dry log is the wet log with the dry-run
mark set. -/
theorem dry_run_purity_witness :
    noErr (create_structure (.dict [("f", .null)]) "/b" false emptyFS).1 = true ∧
    (create_structure (.dict [("f", .null)]) "/b" true emptyFS).1 =
      (create_structure (.dict [("f", .null)]) "/b" false emptyFS).1.map markDry := by
  have h : noErr (create_structure (.dict [("f", .null)]) "/b" false emptyFS).1 = true := by
    simp [create_structure, createEntries, createOne, createFileNode, noErr, openWrite,
      failAt, lookupMsg, mkdirs, fsExists, emptyFS, dirname, pathJoin, startsSlash, endsSlash]
  exact ⟨h, (dry_run_purity (.dict [("f", .null)]) "/b" emptyFS).2.2 h⟩

theorem append_ne_empty_left (a b : String) (h : a ≠ "") : a ++ b ≠ "" := by
  intro he
  apply h
  have hlen := congrArg String.length he
  rw [String.length_append] at hlen
  have h0 : ("" : String).length = 0 := rfl
  have ha : a.length = 0 := by omega
  cases a with
  | mk data =>
    cases data with
    | nil => rfl
    | cons c cs => simp [String.length] at ha

theorem joinSlash_ne_empty : ∀ (a : String) (rest : List String), a ≠ "" →
    joinSlash (a :: rest) ≠ "" := by
  intro a rest ha
  cases rest with
  | nil => simpa [joinSlash] using ha
  | cons b rest2 =>
    simp only [joinSlash]
    exact append_ne_empty_left _ _ (append_ne_empty_left _ _ ha)

theorem joinSlash_append : ∀ (anc : List String) (k : String), (∀ a ∈ anc, a ≠ "") →
    joinSlash (anc ++ [k]) =
      if joinSlash anc = "" then k else joinSlash anc ++ "/" ++ k := by
  intro anc
  induction anc with
  | nil => intro k _; simp [joinSlash]
  | cons a rest ih =>
    intro k h
    have ha : a ≠ "" := h a (by simp)
    cases rest with
    | nil => simp [joinSlash, ha]
    | cons b rest2 =>
      have hb : joinSlash (b :: rest2) ≠ "" := joinSlash_ne_empty b rest2 (h b (by simp))
      have hja : joinSlash (a :: b :: rest2) ≠ "" := joinSlash_ne_empty _ _ ha
      have hrec := ih k (fun x hx => h x (by simp [hx]))
      simp only [List.cons_append, List.append_eq, joinSlash] at hrec hja ⊢
      rw [hrec, if_neg hb, if_neg hja]
      simp [String.append_assoc]

theorem validateRec_eq : ∀ (n : Nat) (d : List (String × PyVal)) (anc : List String),
    sizeOf d ≤ n → nonemptyKeysE d = true → (∀ a ∈ anc, a ≠ "") →
    validateRec d (joinSlash anc) =
      ((collectKeys d anc).filter (fun pk => hasReserved pk.2)).map renderIssue := by
  intro n
  induction n using Nat.strong_induction_on with
  | _ n ih =>
    intro d anc hs hne hanc
    cases d with
    | nil => simp [validateRec, collectKeys]
    | cons e rest =>
      obtain ⟨k, v⟩ := e
      have hrs : sizeOf rest < n := by
        have h := hs
        simp only [List.cons.sizeOf_spec, Prod.mk.sizeOf_spec] at h
        omega
      have hjoin := joinSlash_append anc k hanc
      cases v with
      | dict ch =>
        simp only [nonemptyKeysE, Bool.and_eq_true, decide_eq_true_eq] at hne
        obtain ⟨⟨hk, hv⟩, hrest⟩ := hne
        have hrec_rest := ih (sizeOf rest) hrs rest anc le_rfl hrest hanc
        have hcs : sizeOf ch < n := by
          have h := hs
          simp only [List.cons.sizeOf_spec, Prod.mk.sizeOf_spec, PyVal.dict.sizeOf_spec] at h
          omega
        have hanc2 : ∀ a ∈ anc ++ [k], a ≠ "" := by
          intro a hma
          rcases List.mem_append.mp hma with hin | hin
          · exact hanc a hin
          · simp only [List.mem_singleton] at hin
            rw [hin]
            exact hk
        have hrec_ch := ih (sizeOf ch) hcs ch (anc ++ [k]) le_rfl hv hanc2
        rw [hjoin] at hrec_ch
        simp only [validateRec, collectKeys, hrec_ch, hrec_rest]
        by_cases hres : hasReserved k = true
        · simp [hres, List.filter_append, List.map_append, renderIssue]
        · simp only [Bool.not_eq_true] at hres
          simp [hres, List.filter_append, List.map_append, renderIssue]
      | null =>
        simp only [nonemptyKeysE, Bool.and_eq_true, decide_eq_true_eq] at hne
        obtain ⟨⟨hk, hv⟩, hrest⟩ := hne
        have hrec_rest := ih (sizeOf rest) hrs rest anc le_rfl hrest hanc
        simp only [validateRec, collectKeys, hrec_rest]
        by_cases hres : hasReserved k = true
        · simp [hres, List.filter_append, List.map_append, renderIssue]
        · simp only [Bool.not_eq_true] at hres
          simp [hres, List.filter_append, List.map_append, renderIssue]
      | str s =>
        simp only [nonemptyKeysE, Bool.and_eq_true, decide_eq_true_eq] at hne
        obtain ⟨⟨hk, hv⟩, hrest⟩ := hne
        have hrec_rest := ih (sizeOf rest) hrs rest anc le_rfl hrest hanc
        simp only [validateRec, collectKeys, hrec_rest]
        by_cases hres : hasReserved k = true
        · simp [hres, List.filter_append, List.map_append, renderIssue]
        · simp only [Bool.not_eq_true] at hres
          simp [hres, List.filter_append, List.map_append, renderIssue]
      | list items =>
        simp only [nonemptyKeysE, Bool.and_eq_true, decide_eq_true_eq] at hne
        obtain ⟨⟨hk, hv⟩, hrest⟩ := hne
        have hrec_rest := ih (sizeOf rest) hrs rest anc le_rfl hrest hanc
        simp only [validateRec, collectKeys, hrec_rest]
        by_cases hres : hasReserved k = true
        · simp [hres, List.filter_append, List.map_append, renderIssue]
        · simp only [Bool.not_eq_true] at hres
          simp [hres, List.filter_append, List.map_append, renderIssue]
      | other =>
        simp only [nonemptyKeysE, Bool.and_eq_true, decide_eq_true_eq] at hne
        obtain ⟨⟨hk, hv⟩, hrest⟩ := hne
        have hrec_rest := ih (sizeOf rest) hrs rest anc le_rfl hrest hanc
        simp only [validateRec, collectKeys, hrec_rest]
        by_cases hres : hasReserved k = true
        · simp [hres, List.filter_append, List.map_append, renderIssue]
        · simp only [Bool.not_eq_true] at hres
          simp [hres, List.filter_append, List.map_append, renderIssue]

/-- Claim C6, counterexample: a top-level name with a reserved character
is reported with a leading separator before the name - not as the bare
slash-joined path from the root - and a reserved character in a file name
given as a sequence item under a key is not reported at all. -/
theorem validator_cex :
    validate_structure (.dict [("a:b", .null)]) = ["Invalid characters in name: /a:b"] ∧
    "Invalid characters in name: /a:b" ≠ "Invalid characters in name: a:b" ∧
    validate_structure (.dict [("d", .list [.str "x:y"])]) = [] := by
  refine ⟨?_, by decide, ?_⟩
  · simp only [validate_structure, validateRec,
      (by decide : hasReserved "a:b" = true), if_true]
    decide
  · simp [validate_structure, validateRec,
      (by decide : hasReserved "d" = false)]

/-- Claim C6, amended: on a tree whose mapping keys are all nonempty, the
validator reports exactly the mapping keys containing a reserved
filesystem-unsafe character (reserved characters inside sequence items
are not examined), in pre-order, each rendered as the ancestor path
joined with separators, then a separator, then the name - so a top-level
name carries a leading separator - and an empty issue list means no
mapping key holds a reserved character. -/
theorem validator_amended (d : List (String × PyVal)) (h : nonemptyKeysE d = true) :
    validate_structure (.dict d) =
      ((collectKeys d []).filter (fun pk => hasReserved pk.2)).map renderIssue := by
  have hmain := validateRec_eq (sizeOf d) d [] le_rfl h (by intro a ha; simp at ha)
  simpa [validate_structure, joinSlash] using hmain

/-- Claim C6, witness: the amended validator contract at a concrete tree
with one offending top-level name and one offending nested name. -/
theorem validator_amended_witness :
    nonemptyKeysE [("a:b", PyVal.null), ("ok", PyVal.dict [("x*", PyVal.null)])] = true ∧
    validate_structure (.dict [("a:b", PyVal.null), ("ok", PyVal.dict [("x*", PyVal.null)])]) =
      ((collectKeys [("a:b", PyVal.null), ("ok", PyVal.dict [("x*", PyVal.null)])] []).filter
        (fun pk => hasReserved pk.2)).map renderIssue := by
  have h : nonemptyKeysE [("a:b", PyVal.null), ("ok", PyVal.dict [("x*", PyVal.null)])] = true := by
    simp [nonemptyKeysE]
  exact ⟨h, validator_amended _ h⟩
